import Mathlib

/-!
Verification of the BB84 classical post-processing code
(`bb84/information_rec.py`, `bb84/UniversalHashing.py`,
`presentations/bb84.py`, `bb84/bb84.py`) against its specification.

Bit strings are `List ℕ` of 0/1 entries; numpy integer arrays are lists of
naturals, and numpy operations are translated elementwise.  Fallible Python
code (a `raise`, or an implicit `None` return that poisons later arithmetic)
is embedded with `Option`.
-/

namespace BB84

/-! ## Information reconciliation (`bb84/information_rec.py`) -/

/-- `np.matmul(M, x)` for a matrix given as a list of rows: the PLAIN integer
matrix-vector product, with no reduction mod 2 (the source applies no `% 2`
to the syndromes themselves). -/
def matVec (M : List (List ℕ)) (x : List ℕ) : List ℕ :=
  M.map (fun row => ((row.zip x).map (fun p => p.1 * p.2)).sum)

/-- Elementwise `(u + v) % 2`, as in `(a + b) % 2` on numpy arrays. -/
def addMod2 (u v : List ℕ) : List ℕ :=
  List.zipWith (fun a b => (a + b) % 2) u v

/-- The hard-coded parity-check matrix `H` of `information_rec.py`. -/
def parityCheckMatrix : List (List ℕ) := [[1, 1, 0], [0, 1, 1]]

/-- `alice_syndrome = np.matmul(parity_check_matrix, x)` as a function of
the bit string of Alice. -/
def aliceSyndromeOf (x : List ℕ) : List ℕ := matVec parityCheckMatrix x

/-- `bob_received_message = (alice_bit_string + noise_vector) % 2`. -/
def bobReceivedOf (x noise : List ℕ) : List ℕ := addMod2 x noise

/-- `sum_syndrome = (bob_received_syndrome + alice_syndrome) % 2`, as a
function of the string of Alice and the noise vector. -/
def sumSyndromeOf (x noise : List ℕ) : List ℕ :=
  addMod2 (matVec parityCheckMatrix (bobReceivedOf x noise)) (aliceSyndromeOf x)

/-- `error_estimate(syndrome)`: the four-way `if/elif` syndrome table.  A
syndrome matching no branch falls off the end of the Python function, which
returns `None`; that is `Option.none` here. -/
def errorEstimate (syndrome : List ℕ) : Option (List ℕ) :=
  if syndrome = [0, 0] then some [0, 0, 0]
  else if syndrome = [0, 1] then some [0, 0, 1]
  else if syndrome = [1, 0] then some [1, 0, 0]
  else if syndrome = [1, 1] then some [0, 1, 0]
  else none

/-- `bob_decoded_message = (bob_received_message + error_estimate_s) % 2`,
given the (possibly `None`) error estimate.  When the estimate is `None` the
Python addition blows up, so no decoded message is produced: `none`. -/
def bobDecodedFrom (received : List ℕ) (estimate : Option (List ℕ)) :
    Option (List ℕ) :=
  estimate.map (fun e => addMod2 received e)

/-- The whole reconciliation path of the script, as a function of the string of Alice and the noise vector. -/
def bobDecodedOf (x noise : List ℕ) : Option (List ℕ) :=
  bobDecodedFrom (bobReceivedOf x noise) (errorEstimate (sumSyndromeOf x noise))

/-- The "modulo-2 matrix-vector product" named by the spec: each entry is the
row-input dot product reduced mod 2, hence 0 or 1.  Stated from the words of
the spec, to be compared with `matVec` from the source. -/
def mod2MatVec (M : List (List ℕ)) (x : List ℕ) : List ℕ :=
  M.map (fun row => ((row.zip x).map (fun p => p.1 * p.2)).sum % 2)

/-- The single-bit-flip noise vector of length 3 with the flip at `k`. -/
def unitNoise (k : Fin 3) : List ℕ :=
  (List.range 3).map (fun i => if i = k.1 then 1 else 0)

/-- Number of positions where two bit strings differ. -/
def countDiff (u v : List ℕ) : ℕ :=
  (List.zipWith (fun a b => decide (a ≠ b)) u v).count true

/-! ## Basis sifting (`presentations/bb84.py` lines 42-44,
`bb84/bb84.py` lines 60-62) -/

/-- `basis_a == basis_b` on numpy arrays: the elementwise boolean mask. -/
def boolMask (a b : List ℕ) : List Bool :=
  List.zipWith (fun x y => decide (x = y)) a b

/-- Numpy boolean-mask indexing `data[mask]`: the entries of `data` at the
mask-true positions, in order. -/
def maskSelect (mask : List Bool) (data : List ℕ) : List ℕ :=
  ((mask.zip data).filter (fun p => p.1)).map (fun p => p.2)

/-- The sifting step: `alice_kept_a = alice_a[alice_b == bob_b]`. -/
def sift (basisA basisB data : List ℕ) : List ℕ :=
  maskSelect (boolMask basisA basisB) data

/-! ## Parameter estimation (`presentations/bb84.py` lines 108-121)

`np.where(cond)` with a single 1-D argument returns a TUPLE holding one index
array; the source takes `len` of that tuple, not of the index array. -/

/-- The index array `np.where(mask)[0]`: positions where the mask holds. -/
def trueIndices (mask : List Bool) : List ℕ :=
  (mask.enum.filter (fun p => p.2)).map (fun p => p.1)

/-- `np.where(mask)` on a 1-D mask: a one-element tuple of index arrays. -/
def npWhere1d (mask : List Bool) : List (List ℕ) :=
  [trueIndices mask]

/-- `not_matching_elements = len(np.where(alice_test_a != bob_test_a))`. -/
def notMatchingElements (a b : List ℕ) : ℕ :=
  (npWhere1d (List.zipWith (fun x y => decide (x ≠ y)) a b)).length

/-- The parameter-estimation outcome: `Restart the protocol!` or
`Continue!`. -/
inductive Decision where
  | CONTINUE : Decision
  | ABORT : Decision
deriving DecidableEq, Repr

/-- `if not_matching_elements > threshold: ... restart ... else ... continue`. -/
def estimateDecision (a b : List ℕ) (threshold : ℕ) : Decision :=
  if notMatchingElements a b > threshold then Decision.ABORT
  else Decision.CONTINUE

/-- The intended mismatch count between the two revealed samples (what
`len(np.where(a != b)[0])` would compute). -/
def mismatchCount (a b : List ℕ) : ℕ :=
  (trueIndices (List.zipWith (fun x y => decide (x ≠ y)) a b)).length

/-- One candidate of the test-index sampling loop: from a fresh binary array
`src`, `test_indices = np.where(src == 1)[0]`; the `while` loop exits only
when this has length 4. -/
def testIndicesCandidate (src : List Bool) : List ℕ :=
  trueIndices src

/-! ## Two-universal hashing (`bb84/UniversalHashing.py`)

`np.random` is a global pseudorandom generator: `np.random.seed(s)` resets its
state deterministically from `s`, and each draw advances the state.  The
exact MT19937 bit stream of NumPy is irrelevant to every claim below (only its
determinism from the seed, and the shapes drawn, matter), so the generator is
modelled by an explicit state of type `ℕ` advanced by a concrete linear
congruential step.  The Python-level `random.randint` fallback for a missing
seed is likewise modelled as a deterministic function of the global state of
the `random` module. -/

/-- One step of the modelled global generator state. -/
def npNextState (st : ℕ) : ℕ := (1664525 * st + 1013904223) % 4294967296

/-- `np.random.seed(seed)`: the state the global generator is reset to. -/
def npSeedState (seed : ℕ) : ℕ := seed % 4294967296

/-- One draw of `np.random.randint(0, 2)`: a bit, and the advanced state. -/
def npDrawBit (st : ℕ) : ℕ × ℕ :=
  (npNextState st % 2, npNextState st)

/-- `random.randint(0, 2 ** 32 - 1)` as a function of the global state of the
`random` module. -/
def pyRandInt (pyState : ℕ) : ℕ := pyState % 4294967296

/-- Draw one row of `n` bits, threading the generator state. -/
def genRow : ℕ → ℕ → List ℕ × ℕ
  | 0, st => ([], st)
  | n + 1, st =>
    let d := npDrawBit st
    let rest := genRow n d.2
    (d.1 :: rest.1, rest.2)

/-- Draw an `r × c` binary matrix (list of `r` rows of length `c`),
threading the generator state: `np.random.randint(0, 2, size=(r, c))`. -/
def genMatrix : ℕ → ℕ → ℕ → List (List ℕ) × ℕ
  | 0, _, st => ([], st)
  | r + 1, c, st =>
    let row := genRow c st
    let rest := genMatrix r c row.2
    (row.1 :: rest.1, rest.2)

/-- Draw `k` matrices of shape `r × c`, threading the generator state. -/
def genMatrices : ℕ → ℕ → ℕ → ℕ → List (List (List ℕ)) × ℕ
  | 0, _, _, st => ([], st)
  | k + 1, r, c, st =>
    let mtx := genMatrix r c st
    let rest := genMatrices k r c mtx.2
    (mtx.1 :: rest.1, rest.2)

/-- `TwoUniversalHash._generate_random_matrices`: it first calls
`np.random.seed(self.seed)`, so the ambient global generator state `npAmbient`
is discarded and the matrices depend only on `(seed, output_len, input_len,
m)`. -/
def generateRandomMatrices (seed output_len input_len m : ℕ)
    (npAmbient : ℕ) : List (List (List ℕ)) :=
  let _ := npAmbient
  (genMatrices output_len input_len m (npSeedState seed)).1

/-- Python `int()` on a (here exact rational) number: truncation toward 0,
computed as the truncating division of numerator by denominator. -/
def intTrunc (q : ℚ) : ℤ :=
  q.num.tdiv q.den

/-- The state of a constructed `TwoUniversalHash` object. -/
structure TwoUniversalHash where
  input_len : ℕ
  output_len : ℕ
  load_factor : ℚ
  m : ℕ
  seed : ℕ
  matrices : List (List (List ℕ))

/-- `TwoUniversalHash.__init__(input_len, output_len, load_factor, seed)`:
`m = int(output_len * load_factor)`; `seed` falls back to
`random.randint(0, 2**32 - 1)` when `None`; the matrices are generated from
the seeded global generator.  `pyState` and `npAmbient` are the ambient global
states of the Python `random` module and of `np.random` at construction time. -/
def mkTwoUniversalHash (input_len output_len : ℕ) (load_factor : ℚ)
    (seed? : Option ℕ) (pyState npAmbient : ℕ) : TwoUniversalHash :=
  let m : ℕ := (intTrunc (output_len * load_factor)).toNat
  let seed : ℕ := seed?.getD (pyRandInt pyState)
  { input_len := input_len
    output_len := output_len
    load_factor := load_factor
    m := m
    seed := seed
    matrices := generateRandomMatrices seed output_len input_len m npAmbient }

/-- `np.dot(v, M)` for `v` of length `n` against an `n × m` matrix `M`:
entry `j` is `Σ_i v[i] * M[i][j]`. -/
def dotVM (v : List ℕ) (M : List (List ℕ)) (m : ℕ) : List ℕ :=
  (List.range m).map (fun j => ((v.zip M).map (fun p => p.1 * p.2.getD j 0)).sum)

/-- `TwoUniversalHash.hash`: raises `ValueError` (here `none`) on an input of
the wrong length; otherwise `output[i] = sum(np.dot(input, M_i) % 2) % 2` for
each of the `output_len` matrices, into an output array of length
`output_len`. -/
def TwoUniversalHash.hash (h : TwoUniversalHash) (input : List ℕ) :
    Option (List ℕ) :=
  if input.length ≠ h.input_len then none
  else some ((List.range h.output_len).map (fun i =>
    ((dotVM input (h.matrices.getD i []) h.m).map (fun v => v % 2)).sum % 2))

/-! ## Helper lemmas -/

theorem genRow_length (n st : ℕ) : (genRow n st).1.length = n := by
  induction n generalizing st with
  | zero => rfl
  | succ n ih => simp [genRow, ih]

theorem genMatrix_length (r c st : ℕ) : (genMatrix r c st).1.length = r := by
  induction r generalizing st with
  | zero => rfl
  | succ r ih => simp [genMatrix, ih]

theorem genMatrix_rows (r c st : ℕ) :
    ∀ row ∈ (genMatrix r c st).1, row.length = c := by
  induction r generalizing st with
  | zero => simp [genMatrix]
  | succ r ih =>
    intro row hrow
    simp only [genMatrix, List.mem_cons] at hrow
    rcases hrow with h | h
    · subst h; exact genRow_length c st
    · exact ih _ row h

theorem genMatrices_length (k r c st : ℕ) :
    (genMatrices k r c st).1.length = k := by
  induction k generalizing st with
  | zero => rfl
  | succ k ih => simp [genMatrices, ih]

theorem genMatrices_shape (k r c st : ℕ) :
    ∀ M ∈ (genMatrices k r c st).1, M.length = r ∧ ∀ row ∈ M, row.length = c := by
  induction k generalizing st with
  | zero => simp [genMatrices]
  | succ k ih =>
    intro M hM
    simp only [genMatrices, List.mem_cons] at hM
    rcases hM with h | h
    · subst h; exact ⟨genMatrix_length r c st, genMatrix_rows r c st⟩
    · exact ih _ M h

theorem mk_m_eq (il ol : ℕ) (lf : ℚ) (s? : Option ℕ) (py np : ℕ) :
    (mkTwoUniversalHash il ol lf s? py np).m
      = (intTrunc ((ol : ℚ) * lf)).toNat := rfl

theorem mk_matrices_eq (il ol : ℕ) (lf : ℚ) (s? : Option ℕ) (py np : ℕ) :
    (mkTwoUniversalHash il ol lf s? py np).matrices
      = generateRandomMatrices (s?.getD (pyRandInt py)) ol il
          (mkTwoUniversalHash il ol lf s? py np).m np := rfl

/-! ## Claims -/

/-- Claim C1: for a fixed non-`None` seed and identical
`(input_len, output_len, load_factor, seed)`, two independently constructed
hashers (whatever the ambient global generator states `py` and `np` of the
`random` module and of `np.random` at their construction) agree on the hash of
every input; and two calls on the same instance with the same input agree. -/
theorem hash_deterministic_for_fixed_seed (il ol : ℕ) (lf : ℚ) (s : ℕ)
    (py1 py2 np1 np2 : ℕ) (x : List ℕ) :
    (mkTwoUniversalHash il ol lf (some s) py1 np1).hash x
      = (mkTwoUniversalHash il ol lf (some s) py2 np2).hash x ∧
    (mkTwoUniversalHash il ol lf (some s) py1 np1).hash x
      = (mkTwoUniversalHash il ol lf (some s) py1 np1).hash x :=
  ⟨rfl, rfl⟩

/-- Claim C2: for every 3-bit string and each of the 3 single-bit-flip noise
vectors, the received word differs from the original in exactly one position,
and syndrome reconciliation recovers exactly the original string. -/
theorem single_bit_flip_recovery : ∀ (b0 b1 b2 : Fin 2) (k : Fin 3),
    countDiff [b0.1, b1.1, b2.1]
      (bobReceivedOf [b0.1, b1.1, b2.1] (unitNoise k)) = 1 ∧
    bobDecodedOf [b0.1, b1.1, b2.1] (unitNoise k)
      = some [b0.1, b1.1, b2.1] := by decide

/-- Claim C3 (code bug): with threshold 1 the decision is CONTINUE for ALL
pairs of sampled strings, because `len(np.where(a != b))` is the length of the
one-element tuple returned by `np.where`, namely 1 — in particular the
decision is CONTINUE even for the sample pair `[0,0]` vs `[1,1]`, whose true
mismatch count is 2 and for which the claim demands ABORT. -/
theorem estimator_continues_despite_mismatches :
    (∀ a b : List ℕ, estimateDecision a b 1 = Decision.CONTINUE) ∧
    mismatchCount [0, 0] [1, 1] = 2 ∧
    estimateDecision [0, 0] [1, 1] 1 = Decision.CONTINUE :=
  ⟨fun _ _ => rfl, by decide, by decide⟩

/-- Claim C4: for equal-length bases and data, the sifted string has length
equal to the number of positions where the bases agree, and consists exactly
of the data entries at those positions, in their original relative order. -/
theorem sift_length_and_elements (a b d : List ℕ) (hab : a.length = b.length)
    (hbd : b.length = d.length) :
    (sift a b d).length = (boolMask a b).count true ∧
    sift a b d = ((List.range d.length).filter
      (fun i => a.getD i 0 == b.getD i 0)).map (fun i => d.getD i 0) := by
  induction a generalizing b d with
  | nil =>
    cases b with
    | nil =>
      cases d with
      | nil => simp [sift, boolMask, maskSelect]
      | cons z d => simp at hbd
    | cons y b => simp at hab
  | cons x a ih =>
    cases b with
    | nil => simp at hab
    | cons y b =>
      cases d with
      | nil => simp at hbd
      | cons z d =>
        obtain ⟨ih1, ih2⟩ := ih b d (by simpa using hab) (by simpa using hbd)
        have hcons : sift (x :: a) (y :: b) (z :: d)
            = if x = y then z :: sift a b d else sift a b d := by
          by_cases h : x = y <;>
            simp [sift, boolMask, maskSelect, h]
        have hmask : boolMask (x :: a) (y :: b)
            = decide (x = y) :: boolMask a b := rfl
        have hrange : ((List.range (z :: d).length).filter
              (fun i => (x :: a).getD i 0 == (y :: b).getD i 0)).map
                (fun i => (z :: d).getD i 0)
            = if x = y then z :: ((List.range d.length).filter
                (fun i => a.getD i 0 == b.getD i 0)).map (fun i => d.getD i 0)
              else ((List.range d.length).filter
                (fun i => a.getD i 0 == b.getD i 0)).map (fun i => d.getD i 0) := by
          rw [List.length_cons, List.range_succ_eq_map, List.filter_cons]
          have hsucc : ∀ l : List ℕ,
              (List.filter ((fun i => (x :: a).getD i 0 == (y :: b).getD i 0)
                  ∘ Nat.succ) l).map
                ((fun i => (z :: d).getD i 0) ∘ Nat.succ)
              = (List.filter (fun i => a.getD i 0 == b.getD i 0) l).map
                (fun i => d.getD i 0) := by
            intro l
            have h1 : ((fun i => (x :: a).getD i 0 == (y :: b).getD i 0)
                ∘ Nat.succ) = fun i => a.getD i 0 == b.getD i 0 := by
              funext i; simp [Function.comp, List.getD_cons_succ]
            have h2 : ((fun i => (z :: d).getD i 0) ∘ Nat.succ)
                = fun i => d.getD i 0 := by
              funext i; simp [Function.comp, List.getD_cons_succ]
            rw [h1, h2]
          by_cases h : x = y
          · rw [if_pos (by simp [List.getD_cons_zero, h])]
            rw [List.map_cons, List.filter_map, List.map_map, hsucc _]
            simp [h, List.getD_cons_zero]
          · rw [if_neg (by simp [List.getD_cons_zero, h])]
            rw [List.filter_map, List.map_map, hsucc _]
            simp [h]
        constructor
        · rw [hcons, hmask]
          by_cases h : x = y <;>
            simp [h, List.count_cons, ih1]
        · rw [hcons, hrange]
          by_cases h : x = y <;> simp [h, ih2]

/-- Witness for claim C4 at a concrete instance: bases `[0,1,1,0]` and
`[0,0,1,1]` with data `[1,0,1,1]`. -/
theorem sift_length_and_elements_witness :
    ([0, 1, 1, 0] : List ℕ).length = ([0, 0, 1, 1] : List ℕ).length ∧
    ([0, 0, 1, 1] : List ℕ).length = ([1, 0, 1, 1] : List ℕ).length ∧
    ((sift [0, 1, 1, 0] [0, 0, 1, 1] [1, 0, 1, 1]).length
        = (boolMask [0, 1, 1, 0] [0, 0, 1, 1]).count true ∧
      sift [0, 1, 1, 0] [0, 0, 1, 1] [1, 0, 1, 1]
        = ((List.range ([1, 0, 1, 1] : List ℕ).length).filter
            (fun i => ([0, 1, 1, 0] : List ℕ).getD i 0
              == ([0, 0, 1, 1] : List ℕ).getD i 0)).map
          (fun i => ([1, 0, 1, 1] : List ℕ).getD i 0)) :=
  ⟨by decide, by decide,
    sift_length_and_elements [0, 1, 1, 0] [0, 0, 1, 1] [1, 0, 1, 1]
      (by decide) (by decide)⟩

/-- Claim C5 counterexample: for the string `[1,1,0]` the computed syndrome is
the unreduced product `[2,1]`, which is not the modulo-2 matrix-vector product
`[0,1]`, and one of its entries exceeds 1. -/
theorem syndrome_unreduced_counterexample :
    aliceSyndromeOf [1, 1, 0] = [2, 1] ∧
    mod2MatVec parityCheckMatrix [1, 1, 0] = [0, 1] ∧
    aliceSyndromeOf [1, 1, 0] ≠ mod2MatVec parityCheckMatrix [1, 1, 0] ∧
    ¬ (∀ v ∈ aliceSyndromeOf [1, 1, 0], v ≤ 1) := by decide

/-- Claim C5 as amended: the computed syndrome is the plain integer
matrix-vector product, whose entrywise reduction mod 2 is the modulo-2
product; for the matrix `[[1,1,0],[0,1,1]]` and the string `[0,0,1]` the
syndrome is `[0,1]`, and reconciling the received word `[0,0,1]` with no noise
yields corrected `[0,0,1]` with zero residual syndrome. -/
theorem syndrome_mod2_reduction_and_example :
    (∀ (M : List (List ℕ)) (x : List ℕ),
      (matVec M x).map (fun v => v % 2) = mod2MatVec M x) ∧
    aliceSyndromeOf [0, 0, 1] = [0, 1] ∧
    sumSyndromeOf [0, 0, 1] [0, 0, 0] = [0, 0] ∧
    bobDecodedOf [0, 0, 1] [0, 0, 0] = some [0, 0, 1] := by
  refine ⟨?_, by decide, by decide, by decide⟩
  intro M x
  simp [matVec, mod2MatVec, List.map_map, Function.comp]

/-- Claim C6 counterexample: with `output_len = 2` and `load_factor = 9/10`
the constructed width is `m = int(2 * 0.9) = 1`, while the claim demands
`round(2 * 0.9) = 2`; the first row of the first generated matrix indeed has
length 1, not 2. -/
theorem matrix_width_counterexample :
    (mkTwoUniversalHash 3 2 (9/10) (some 5) 0 0).m = 1 ∧
    (round (((2 : ℕ) : ℚ) * (9/10)) : ℤ) = 2 ∧
    ¬ (((mkTwoUniversalHash 3 2 (9/10) (some 5) 0 0).matrices.getD 0
          []).getD 0 []).length
        = (round (((2 : ℕ) : ℚ) * (9/10)) : ℤ).toNat := by
  have hm : (mkTwoUniversalHash 3 2 (9/10) (some 5) 0 0).m = 1 := by
    rw [mk_m_eq]; norm_num [intTrunc, Int.tdiv]
  have hr : (round (((2 : ℕ) : ℚ) * (9/10)) : ℤ) = 2 := by
    norm_num [round_eq]
  refine ⟨hm, hr, ?_⟩
  rw [hr, mk_matrices_eq, hm]
  decide

/-- Claim C6 as amended: every constructed hasher holds exactly `output_len`
binary matrices, each of shape `(input_len, m)`, where
`m = int(output_len * load_factor)` is the product truncated toward zero (not
rounded to nearest). -/
theorem hasher_matrix_shapes (il ol : ℕ) (lf : ℚ) (s? : Option ℕ)
    (py np : ℕ) :
    (mkTwoUniversalHash il ol lf s? py np).m
      = (intTrunc ((ol : ℚ) * lf)).toNat ∧
    (mkTwoUniversalHash il ol lf s? py np).matrices.length = ol ∧
    (mkTwoUniversalHash il ol lf s? py np).matrices.all (fun M =>
      M.length == il && M.all (fun row =>
        row.length == (mkTwoUniversalHash il ol lf s? py np).m)) = true := by
  refine ⟨rfl, ?_, ?_⟩
  · rw [mk_matrices_eq]
    simp [generateRandomMatrices, genMatrices_length]
  · rw [List.all_eq_true]
    intro M hM
    rw [mk_matrices_eq] at hM
    simp only [generateRandomMatrices] at hM
    obtain ⟨h1, h2⟩ := genMatrices_shape ol il _ _ M hM
    simp only [Bool.and_eq_true, beq_iff_eq, List.all_eq_true]
    exact ⟨h1, fun row hrow => h2 row hrow⟩

/-- Claim C7: hashing an input whose length differs from the configured
`input_len` yields no output (the `ValueError` branch), and hashing an input
of the configured length yields a bit string of length exactly
`output_len`. -/
theorem hash_length_contract (h : TwoUniversalHash) (x : List ℕ) :
    (x.length ≠ h.input_len → h.hash x = none) ∧
    (x.length = h.input_len →
      ∃ y, h.hash x = some y ∧ y.length = h.output_len) := by
  constructor
  · intro hne
    simp [TwoUniversalHash.hash, hne]
  · intro heq
    refine ⟨(List.range h.output_len).map (fun i =>
      ((dotVM x (h.matrices.getD i []) h.m).map (fun v => v % 2)).sum % 2),
      ?_, ?_⟩
    · simp [TwoUniversalHash.hash, heq]
    · simp

/-- Witness for claim C7 on the hasher of `privacy_amplification.py`
(`input_len = 3`, `output_len = 2`, `load_factor = 0.75`, `seed = 11`): the
length-2 input is rejected, the length-3 input hashes to a string of length
`output_len`. -/
theorem hash_length_contract_witness :
    (mkTwoUniversalHash 3 2 (3/4) (some 11) 0 0).hash [0, 1] = none ∧
    ∃ y, (mkTwoUniversalHash 3 2 (3/4) (some 11) 0 0).hash [0, 1, 0] = some y ∧
      y.length = (mkTwoUniversalHash 3 2 (3/4) (some 11) 0 0).output_len :=
  ⟨(hash_length_contract _ [0, 1]).1 (by decide),
    (hash_length_contract _ [0, 1, 0]).2 (by decide)⟩

/-- Claim C8 (code bug): when the sifted key is shorter than the 4 required
test indices, no candidate drawn by the sampling loop can satisfy the exit
condition `len(test_indices) == 4`, so the `while` loop never terminates — the
code hangs instead of failing with an explicit insufficient-length error. -/
theorem test_sampling_cannot_exit_when_short :
    ∀ src : List Bool, src.length < 4 → (testIndicesCandidate src).length ≠ 4 := by
  intro src h hc
  have hle : (testIndicesCandidate src).length ≤ src.length := by
    simp only [testIndicesCandidate, trueIndices, List.length_map]
    calc (List.filter (fun p => p.2) src.enum).length ≤ src.enum.length :=
          List.length_filter_le _ _
      _ = src.length := List.enum_length
  omega

/-- Witness for claim C8 at a sifted key of length 3. -/
theorem test_sampling_cannot_exit_when_short_witness :
    ([true, true, true] : List Bool).length < 4 ∧
    (testIndicesCandidate [true, true, true]).length ≠ 4 :=
  ⟨by decide, test_sampling_cannot_exit_when_short [true, true, true] (by decide)⟩

/-- Claim C9 (code bug): a residual syndrome outside the lookup table (here
`[2,0]`) makes `error_estimate` fall off the end and return `None`, so no
correction value is produced and the subsequent decoding step yields nothing —
there is no explicit decode-failure error. -/
theorem error_estimate_returns_none :
    errorEstimate [2, 0] = none ∧
    bobDecodedFrom [0, 0, 1] (errorEstimate [2, 0]) = none := by decide

/-- Claim C10: when `int(output_len * load_factor) = 0` the generated matrices
have zero columns, every dot product is empty, and the hash of every input of
the configured length is the all-zero string of length `output_len`. -/
theorem hash_constant_when_m_zero (il ol : ℕ) (lf : ℚ) (s? : Option ℕ)
    (py np : ℕ) (x : List ℕ)
    (hm : intTrunc ((ol : ℚ) * lf) = 0) (hx : x.length = il) :
    (mkTwoUniversalHash il ol lf s? py np).hash x
      = some (List.replicate ol 0) := by
  have hm0 : (mkTwoUniversalHash il ol lf s? py np).m = 0 := by
    rw [mk_m_eq, hm]; rfl
  have hil : (mkTwoUniversalHash il ol lf s? py np).input_len = il := rfl
  have hol : (mkTwoUniversalHash il ol lf s? py np).output_len = ol := rfl
  rw [TwoUniversalHash.hash, if_neg (by rw [hil, hx]; simp), hol, hm0]
  simp [dotVM, List.map_const']

/-- Witness for claim C10 with `output_len = 2`, `load_factor = 1/4`
(`int(2 * 0.25) = 0`) and the input `[1, 1]`. -/
theorem hash_constant_when_m_zero_witness :
    intTrunc (((2 : ℕ) : ℚ) * (1/4)) = 0 ∧
    ([1, 1] : List ℕ).length = 2 ∧
    (mkTwoUniversalHash 2 2 (1/4) (some 5) 0 0).hash [1, 1]
      = some (List.replicate 2 0) :=
  ⟨by norm_num [intTrunc, Int.tdiv], by decide,
    hash_constant_when_m_zero 2 2 (1/4) (some 5) 0 0 [1, 1]
      (by norm_num [intTrunc, Int.tdiv]) (by decide)⟩

end BB84
